import Mathlib

/-!
Verification of the Small-Caps-Low-PE-Ratio strategy modules.

Shallow embedding of the two modules of the repository that carry logic:
  * `Universe/SmallCapsLowPERatioUniverseSelection.py`
    (`SelectCoarse`, `SelectFine`), and
  * `Portfolio/CustomEqualWeightingPortfolioConstruction.py`
    (`CreateTargets`, `ShouldCreateTargets`, `DetermineTargetPercent`,
    `OnSecuritiesChanged`).

Prices, market caps, P/E ratios and portfolio percents are embedded as
rationals; times are naturals (with the host's `UTCMIN` as `0`); symbols are
naturals.  Host-framework pieces the code calls into (numpy's percentile,
`InsightCollection`, `PortfolioTarget.Percent`, the portfolio holdings) are
modelled explicitly where their doc comments say so, or passed in as
parameters.
-/

namespace Strategy

/-! ### Universe selection: data model -/

/-- One entry of the host's coarse-fundamental snapshot, with the fields
`SelectCoarse` reads: `Symbol`, `HasFundamentalData`, `Price`. -/
structure CoarseData where
  Symbol : Nat
  HasFundamentalData : Bool
  Price : ℚ
deriving DecidableEq, Repr

/-- The host's `ValuationRatios` record, with the field `SelectFine` reads. -/
structure ValuationRatios where
  PERatio : ℚ
deriving DecidableEq, Repr

/-- One entry of the host's fine-fundamental snapshot, with the fields
`SelectFine` reads: `Symbol`, `MarketCap`, `ValuationRatios`. -/
structure FineData where
  Symbol : Nat
  MarketCap : ℚ
  ValuationRatios : ValuationRatios
deriving DecidableEq, Repr

/-- The value `SelectCoarse` returns to the host: either the sentinel
`Universe.Unchanged`, or a list of selected symbols. -/
inductive CoarseResult where
  | unchanged : CoarseResult
  | selected : List Nat → CoarseResult
deriving DecidableEq, Repr

/-- The coarse filter of line 43 of the universe file: securities with
fundamental data and last price above $5. -/
def coarseFilter (coarse : List CoarseData) : List CoarseData :=
  coarse.filter (fun x => x.HasFundamentalData && decide ((5 : ℚ) < x.Price))

/-- `SelectCoarse` of `SmallCapsLowPERatioUniverseSelectionModel`.  The state
`periodCheck` (initially `-1`) holds the last processed year; when the
snapshot's year equals it the method returns `Universe.Unchanged`, otherwise
it stores the year and returns the symbols passing `coarseFilter`.  Returns
the result together with the updated `periodCheck`. -/
def SelectCoarse (periodCheck : Int) (year : Int) (coarse : List CoarseData) :
    CoarseResult × Int :=
  if year = periodCheck then
    (CoarseResult.unchanged, periodCheck)
  else
    (CoarseResult.selected ((coarseFilter coarse).map (·.Symbol)), year)

/-- The fine filter of line 56 of the universe file: small caps
(market cap strictly between $300 million and $2 billion) with strictly
positive P/E ratio. -/
def fineFilter (fine : List FineData) : List FineData :=
  fine.filter (fun x =>
    decide ((300000000 : ℚ) < x.MarketCap) &&
    decide (x.MarketCap < (2000000000 : ℚ)) &&
    decide ((0 : ℚ) < x.ValuationRatios.PERatio))

/-- Floor of a rational as an integer (the denominator is positive, so
Euclidean division of the numerator floors). -/
def ratFloor (x : ℚ) : Int := x.num.ediv x.den

/-- Ceiling of a rational as an integer. -/
def ratCeil (x : ℚ) : Int := -(ratFloor (-x))

/-- Modelled from the spec: the repository calls numpy's `np.percentile`,
which is host/library code not in this repository.  With the default linear
interpolation, the q-th percentile of a non-empty list is taken at virtual
index `h = q * (n - 1) / 100` of the sorted list, interpolating linearly
between the neighbouring entries; on an empty list the computation fails,
modelled as `none`. -/
def npPercentile (q : ℚ) (l : List ℚ) : Option ℚ :=
  if l = [] then none
  else
    let s := l.insertionSort (· ≤ ·)
    let h : ℚ := q * ((s.length : ℚ) - 1) / 100
    let lo : Nat := (ratFloor h).toNat
    let hi : Nat := (ratCeil h).toNat
    some (s.getD lo 0 + (h - (lo : ℚ)) * (s.getD hi 0 - s.getD lo 0))

/-- `SelectFine` of `SmallCapsLowPERatioUniverseSelectionModel`: filter the
snapshot down to small caps with positive P/E, compute the 1st percentile of
their P/E ratios, and return the symbols of those at or below it.  `none`
when the percentile computation fails (empty filtered set). -/
def SelectFine (fine : List FineData) : Option (List Nat) :=
  match npPercentile 1 ((fineFilter fine).map (·.ValuationRatios.PERatio)) with
  | none => none
  | some p =>
      some (((fineFilter fine).filter
        (fun x => decide (x.ValuationRatios.PERatio ≤ p))).map (·.Symbol))

/-! ### Portfolio construction: data model -/

/-- The host's `InsightDirection` enum. -/
inductive InsightDirection where
  | Up : InsightDirection
  | Down : InsightDirection
  | Flat : InsightDirection
deriving DecidableEq, Repr

/-- Numeric value of a direction, as used by `insight.Direction * percent`
(the host enum has `Up = 1`, `Down = -1`, `Flat = 0`). -/
def dirVal : InsightDirection → ℚ
  | InsightDirection.Up => 1
  | InsightDirection.Down => -1
  | InsightDirection.Flat => 0

/-- The host's insight record, with the fields this repository reads:
symbol, predicted direction, generation time and close (expiry) time. -/
structure Insight where
  Symbol : Nat
  Direction : InsightDirection
  GeneratedTimeUtc : Nat
  CloseTimeUtc : Nat
deriving DecidableEq, Repr

/-- The host's portfolio-target record: a symbol and a desired quantity
(the flatten targets `PortfolioTarget(symbol, 0)` carry quantity `0`). -/
structure PortfolioTarget where
  Symbol : Nat
  Quantity : ℚ
deriving DecidableEq, Repr

/-- The fields of a host portfolio holding that `ShouldCreateTargets`
reads: `Invested`, `IsLong`, `IsShort`. -/
structure Holding where
  Invested : Bool
  IsLong : Bool
  IsShort : Bool
deriving DecidableEq, Repr

/-- The mutable state of `CustomEqualWeightingPortfolioConstructionModel`:
the insight collection, the removed-symbols list recorded by
`OnSecuritiesChanged` (`none` models Python's `None`), and the two times
(`UTCMIN` is modelled as `0`). -/
structure PCMState where
  insightCollection : List Insight
  removedSymbols : Option (List Nat)
  nextExpiryTime : Nat
  rebalancingTime : Nat
deriving DecidableEq, Repr

/-- The state set up by `__init__`: empty collection, removed symbols `[]`
(a list, not `None`), both times at `UTCMIN`. -/
def initialState : PCMState :=
  { insightCollection := []
    removedSymbols := some []
    nextExpiryTime := 0
    rebalancingTime := 0 }

/-! ### Host `InsightCollection` model

The insight collection is host-framework code this repository calls into;
it is modelled as the list of insights it holds.  An insight is active at
`t` while `t` is before its close time, and expired once its close time has
passed. -/

/-- Modelled from the spec: the host collection's `GetActiveInsights`,
the insights that have not expired at `t`. -/
def getActiveInsights (c : List Insight) (t : Nat) : List Insight :=
  c.filter (fun i => decide (t < i.CloseTimeUtc))

/-- Modelled from the spec: the host collection's `RemoveExpiredInsights`;
returns the expired insights and the remaining collection. -/
def removeExpiredInsights (c : List Insight) (t : Nat) :
    List Insight × List Insight :=
  (c.filter (fun i => decide (i.CloseTimeUtc < t)),
   c.filter (fun i => decide (t ≤ i.CloseTimeUtc)))

/-- Modelled from the spec: the host collection's `HasActiveInsights` for a
symbol. -/
def hasActiveInsights (c : List Insight) (s : Nat) (t : Nat) : Bool :=
  c.any (fun i => decide (i.Symbol = s) && decide (t < i.CloseTimeUtc))

/-- Modelled from the spec: the host collection's `GetNextExpiryTime`, the
earliest close time in the collection (`none` when empty). -/
def getNextExpiryTime : List Insight → Option Nat
  | [] => none
  | i :: rest =>
      match getNextExpiryTime rest with
      | none => some i.CloseTimeUtc
      | some m => some (min i.CloseTimeUtc m)

/-- Modelled from the spec: the host collection's `Clear(symbols)`, dropping
every insight whose symbol is in the list. -/
def clearSymbols (c : List Insight) (syms : List Nat) : List Insight :=
  c.filter (fun i => !(decide (i.Symbol ∈ syms)))

/-! ### Portfolio construction: operations -/

/-- Python's `itertools.groupby` keyed on the symbol: groups of consecutive
insights sharing a symbol, in order. -/
def groupBySymbol : List Insight → List (List Insight)
  | [] => []
  | x :: xs =>
      match groupBySymbol xs with
      | [] => [[x]]
      | [] :: gs => [x] :: gs
      | (y :: g) :: gs =>
          if x.Symbol = y.Symbol then (x :: y :: g) :: gs
          else [x] :: (y :: g) :: gs

/-- `sorted(g, key = GeneratedTimeUtc)[-1]` on a non-empty group: the last
element among those of maximal generation time (Python's sort is stable, so
ties keep list order and `[-1]` takes the latest-listed maximum). -/
def lastOfGroup (b : Insight) : List Insight → Insight
  | [] => b
  | x :: xs => lastOfGroup (if b.GeneratedTimeUtc ≤ x.GeneratedTimeUtc then x else b) xs

/-- Lines 83-86 of the portfolio file: the last generated active insight of
each consecutive symbol group. -/
def lastActiveOf (l : List Insight) : List Insight :=
  (groupBySymbol l).filterMap (fun g =>
    match g with
    | [] => none
    | x :: xs => some (lastOfGroup x xs))

/-- `sum(x.Direction != InsightDirection.Flat for x in lastActiveInsights)`:
the number of non-flat insights. -/
def nonFlatCount (l : List Insight) : Nat :=
  (l.filter (fun i => decide (i.Direction ≠ InsightDirection.Flat))).length

/-- The percent `DetermineTargetPercent` assigns to insight `i` given the
whole list `l`: direction times `1/count` (`0` when no insight is
non-flat). -/
def targetPercentOf (l : List Insight) (i : Insight) : ℚ :=
  dirVal i.Direction *
    (if nonFlatCount l = 0 then 0 else 1 / (nonFlatCount l : ℚ))

/-- `DetermineTargetPercent` of the portfolio model: the dictionary mapping
each insight of the list to its equal-weighting percent, as an association
list in list order (the Python dict is keyed on distinct insight objects). -/
def DetermineTargetPercent (l : List Insight) : List (Insight × ℚ) :=
  l.map (fun i => (i, targetPercentOf l i))

/-- `ShouldCreateTargets` of the portfolio model: rebalance when it is time
to rebalance, or when some last active insight is for a new uninvested
security, or closes a long or a short position. -/
def ShouldCreateTargets (rebalancing : Bool) (rebalancingTime utcTime : Nat)
    (portfolio : Nat → Holding) (lastActiveInsights : List Insight) : Bool :=
  (rebalancing && decide (rebalancingTime ≤ utcTime)) ||
  lastActiveInsights.any (fun i =>
    (!(portfolio i.Symbol).Invested && !(decide (i.Direction = InsightDirection.Flat))) ||
    ((portfolio i.Symbol).IsLong && !(decide (i.Direction = InsightDirection.Up))) ||
    ((portfolio i.Symbol).IsShort && !(decide (i.Direction = InsightDirection.Down))))

/-- Lines 90-96 of `CreateTargets`: for each last active insight, the host's
`PortfolioTarget.Percent` (passed in as `percentFn`) builds a target; a
non-null target is appended, a null one records the symbol in
`errorSymbols`.  Returns the appended targets and the error symbols, in
order. -/
def percentTargetsLoop (percentFn : Nat → ℚ → Option PortfolioTarget)
    (pct : Insight → ℚ) : List Insight → List PortfolioTarget × List Nat
  | [] => ([], [])
  | i :: rest =>
      match percentFn i.Symbol (pct i) with
      | some t =>
          let r := percentTargetsLoop percentFn pct rest
          (t :: r.1, r.2)
      | none =>
          let r := percentTargetsLoop percentFn pct rest
          (r.1, i.Symbol :: r.2)

/-- Lines 73-76 of `CreateTargets`: one flatten target per removed symbol
when the removed-symbols list is not `None`. -/
def deselectionTargets : Option (List Nat) → List PortfolioTarget
  | none => []
  | some syms => syms.map (fun s => { Symbol := s, Quantity := 0 })

/-- Lines 103-110 of `CreateTargets`: a flatten target for each consecutive
symbol group of the expired insights whose symbol has no remaining active
insight and is not an error symbol. -/
def expiredFlattenTargets (remaining : List Insight) (utcTime : Nat)
    (errorSymbols : List Nat) (expired : List Insight) : List PortfolioTarget :=
  (((groupBySymbol expired).filterMap (fun g => g.head?.map (·.Symbol))).filter
    (fun s => !(hasActiveInsights remaining s utcTime) && !(decide (s ∈ errorSymbols)))).map
    (fun s => { Symbol := s, Quantity := 0 })

/-- `CreateTargets` of `CustomEqualWeightingPortfolioConstructionModel`.
Besides the model state it takes the pieces owned by the host: the
rebalancing configuration from `__init__` (`rebalancing` flag and
`rebalancingFunc`), `PortfolioTarget.Percent` as `percentFn`, the portfolio
holdings, and the current UTC time.  Returns the targets, the new state, and
the log messages the method emits (it emits none). -/
def CreateTargets (rebalancing : Bool) (rebalancingFunc : Nat → Nat)
    (percentFn : Nat → ℚ → Option PortfolioTarget) (portfolio : Nat → Holding)
    (utcTime : Nat) (st : PCMState) (insights : List Insight) :
    List PortfolioTarget × PCMState × List String :=
  if insights = [] ∧ utcTime ≤ st.nextExpiryTime ∧ st.removedSymbols = none then
    ([], st, [])
  else
    let col := st.insightCollection ++ insights
    let deselTargets := deselectionTargets st.removedSymbols
    let lastActive := lastActiveOf (getActiveInsights col utcTime)
    let should := ShouldCreateTargets rebalancing st.rebalancingTime utcTime
      portfolio lastActive
    let pt :=
      if should then percentTargetsLoop percentFn (targetPercentOf lastActive) lastActive
      else ([], [])
    let rebalancingTime' :=
      if should && rebalancing then rebalancingFunc utcTime else st.rebalancingTime
    let ec := removeExpiredInsights col utcTime
    let expTargets := expiredFlattenTargets ec.2 utcTime pt.2 ec.1
    (deselTargets ++ pt.1 ++ expTargets,
     { insightCollection := ec.2
       removedSymbols := none
       nextExpiryTime := (getNextExpiryTime ec.2).getD 0
       rebalancingTime := rebalancingTime' },
     [])

/-- `OnSecuritiesChanged` of the portfolio model: record the removed symbols
and clear them from the insight collection. -/
def OnSecuritiesChanged (st : PCMState) (removedSymbols : List Nat) : PCMState :=
  { st with
    removedSymbols := some removedSymbols
    insightCollection := clearSymbols st.insightCollection removedSymbols }

/-! ### Fixtures for concrete witnesses -/

/-- A fine snapshot entry inside every filter bound: $1bn market cap,
P/E ratio 10. -/
def fine0 : FineData := ⟨0, 1000000000, ⟨10⟩⟩

/-- An Up insight on symbol 0, generated at 0, expiring at 10. -/
def insUp : Insight := ⟨0, InsightDirection.Up, 0, 10⟩

/-- A Down insight on symbol 1, generated at 0, expiring at 10. -/
def insDown : Insight := ⟨1, InsightDirection.Down, 0, 10⟩

/-- A Flat insight on symbol 2, generated at 0, expiring at 10. -/
def insFlat : Insight := ⟨2, InsightDirection.Flat, 0, 10⟩

/-- A holding with no position, as `ShouldCreateTargets` reads it. -/
def emptyHolding : Holding := ⟨false, false, false⟩

section ClaimTheorems

attribute [local semireducible] Rat.mul Rat.add Rat.inv Rat.sub

/-! ### Universe-selection claims -/

/-- Claim C4 (as stated) is false: on an invocation whose snapshot year
equals the already-processed year, `SelectCoarse` returns the
`Universe.Unchanged` sentinel, not a list of symbols. -/
theorem claim_C4_counterexample :
    ¬ ∃ syms, (SelectCoarse 2015 2015 []).1 = CoarseResult.selected syms := by
  rintro ⟨syms, h⟩
  simp [SelectCoarse] at h

/-- Claim C4 (amended): on every invocation whose snapshot year differs from
the stored `periodCheck`, `SelectCoarse` returns a list of symbols (those
passing the coarse filter) and stores the snapshot's year. -/
theorem claim_C4 (periodCheck year : Int) (coarse : List CoarseData)
    (h : year ≠ periodCheck) :
    SelectCoarse periodCheck year coarse
      = (CoarseResult.selected ((coarseFilter coarse).map (·.Symbol)), year) := by
  simp [SelectCoarse, h]

/-- Witness for C4: first-ever invocation (`periodCheck = -1`) in 2015. -/
theorem claim_C4_witness :
    (2015 : Int) ≠ -1 ∧
    SelectCoarse (-1) 2015 [] = (CoarseResult.selected [], 2015) :=
  ⟨by decide, claim_C4 (-1) 2015 [] (by decide)⟩

/-- Claim C7: when the coarse stage runs (new year), it selects exactly the
symbols of the coarse-filtered securities, and a security passes the coarse
filter if and only if it is in the snapshot, has fundamental data, and has
last price above $5. -/
theorem claim_C7 (periodCheck year : Int) (coarse : List CoarseData)
    (x : CoarseData) (h : year ≠ periodCheck) :
    (SelectCoarse periodCheck year coarse).1
      = CoarseResult.selected ((coarseFilter coarse).map (·.Symbol)) ∧
    (x ∈ coarseFilter coarse ↔
      x ∈ coarse ∧ x.HasFundamentalData = true ∧ (5 : ℚ) < x.Price) := by
  constructor
  · simp [SelectCoarse, h]
  · simp [coarseFilter, List.mem_filter, and_assoc]

/-- Witness for C7: a single security with fundamental data priced at $6. -/
theorem claim_C7_witness :
    (2015 : Int) ≠ -1 ∧
    ((SelectCoarse (-1) 2015 [⟨0, true, 6⟩]).1
        = CoarseResult.selected ((coarseFilter [⟨0, true, 6⟩]).map (·.Symbol)) ∧
     ((⟨0, true, 6⟩ : CoarseData) ∈ coarseFilter [⟨0, true, 6⟩] ↔
        (⟨0, true, 6⟩ : CoarseData) ∈ [(⟨0, true, 6⟩ : CoarseData)] ∧
        (true : Bool) = true ∧ (5 : ℚ) < 6)) :=
  ⟨by decide, claim_C7 (-1) 2015 [⟨0, true, 6⟩] ⟨0, true, 6⟩ (by decide)⟩

/-- Claim C5: `SelectFine` never returns more symbols than there are
securities in the small-cap filtered set the percentile was computed on. -/
theorem claim_C5 (fine : List FineData) (syms : List Nat)
    (h : SelectFine fine = some syms) :
    syms.length ≤ (fineFilter fine).length := by
  simp only [SelectFine] at h
  split at h
  · cases h
  · cases h
    simpa using List.length_filter_le _ (fineFilter fine)

/-- Witness for C5: one in-bounds security, selected; 1 ≤ 1. -/
theorem claim_C5_witness :
    SelectFine [fine0] = some [0] ∧ ([0] : List Nat).length ≤ (fineFilter [fine0]).length :=
  ⟨by decide, claim_C5 [fine0] [0] (by decide)⟩

/-- Claim C6: every symbol `SelectFine` returns comes from a security of the
snapshot whose market cap is strictly between $300 million and $2 billion,
whose P/E ratio is strictly positive, and whose P/E ratio is at or below
the 1st percentile of P/E ratios over the small-cap filtered set. -/
theorem claim_C6 (fine : List FineData) (syms : List Nat)
    (h : SelectFine fine = some syms) (s : Nat) (hs : s ∈ syms) :
    ∃ x ∈ fine, x.Symbol = s ∧
      (300000000 : ℚ) < x.MarketCap ∧ x.MarketCap < (2000000000 : ℚ) ∧
      (0 : ℚ) < x.ValuationRatios.PERatio ∧
      ∃ p, npPercentile 1 ((fineFilter fine).map (·.ValuationRatios.PERatio)) = some p ∧
        x.ValuationRatios.PERatio ≤ p := by
  simp only [SelectFine] at h
  split at h
  · cases h
  · next p hp =>
    cases h
    obtain ⟨x, hx, rfl⟩ := List.mem_map.1 hs
    obtain ⟨hx1, hx2⟩ := List.mem_filter.1 hx
    obtain ⟨hx3, hx4⟩ := List.mem_filter.1 hx1
    have hb : (300000000 : ℚ) < x.MarketCap ∧ x.MarketCap < (2000000000 : ℚ) ∧
        (0 : ℚ) < x.ValuationRatios.PERatio := by
      simpa [and_assoc] using hx4
    exact ⟨x, hx3, rfl, hb.1, hb.2.1, hb.2.2, p, hp, by simpa using hx2⟩

/-- Witness for C6: the selected symbol 0 of the single-security snapshot. -/
theorem claim_C6_witness :
    SelectFine [fine0] = some [0] ∧ (0 : Nat) ∈ ([0] : List Nat) ∧
    (∃ x ∈ [fine0], x.Symbol = 0 ∧
      (300000000 : ℚ) < x.MarketCap ∧ x.MarketCap < (2000000000 : ℚ) ∧
      (0 : ℚ) < x.ValuationRatios.PERatio ∧
      ∃ p, npPercentile 1 ((fineFilter [fine0]).map (·.ValuationRatios.PERatio)) = some p ∧
        x.ValuationRatios.PERatio ≤ p) :=
  ⟨by decide, by decide, claim_C6 [fine0] [0] (by decide) 0 (by decide)⟩

/-- Claim C9: `SelectFine` succeeds exactly on the non-empty small-cap
filtered sets: non-empty gives a normal return, empty makes the percentile
computation fail and `SelectFine` return nothing. -/
theorem claim_C9 (fine : List FineData) :
    (fineFilter fine ≠ [] → ∃ syms, SelectFine fine = some syms) ∧
    (fineFilter fine = [] →
      npPercentile 1 ((fineFilter fine).map (·.ValuationRatios.PERatio)) = none ∧
      SelectFine fine = none) := by
  constructor
  · intro hne
    have hm : (fineFilter fine).map (·.ValuationRatios.PERatio) ≠ [] := by
      simpa using hne
    obtain ⟨p, hp⟩ : ∃ p,
        npPercentile 1 ((fineFilter fine).map (·.ValuationRatios.PERatio)) = some p := by
      unfold npPercentile
      rw [if_neg hm]
      exact ⟨_, rfl⟩
    exact ⟨((fineFilter fine).filter
        (fun x => decide (x.ValuationRatios.PERatio ≤ p))).map (·.Symbol),
      by simp only [SelectFine, hp]⟩
  · intro he
    have hm : (fineFilter fine).map (·.ValuationRatios.PERatio) = [] := by
      simp [he]
    have hp : npPercentile 1 ((fineFilter fine).map (·.ValuationRatios.PERatio)) = none := by
      unfold npPercentile
      rw [if_pos hm]
    exact ⟨hp, by simp only [SelectFine, hp]⟩

/-- Witness for C9: a non-empty filtered set succeeds, the empty snapshot
fails. -/
theorem claim_C9_witness :
    (∃ syms, SelectFine [fine0] = some syms) ∧ SelectFine [] = none :=
  ⟨(claim_C9 [fine0]).1 (by decide), ((claim_C9 []).2 (by decide)).2⟩

/-! ### Portfolio-construction claims -/

/-- `nonFlatCount` over a cons: one more when the head is non-flat. -/
lemma nonFlatCount_cons (i : Insight) (t : List Insight) :
    nonFlatCount (i :: t)
      = (if i.Direction = InsightDirection.Flat then 0 else 1) + nonFlatCount t := by
  unfold nonFlatCount
  rw [List.filter_cons]
  by_cases h : i.Direction = InsightDirection.Flat
  · simp [h]
  · simp [h]
    omega

/-- Sum of the absolute values of `direction * q` over a list, for
non-negative `q`: the non-flat count times `q`. -/
lemma sumAbsDir (q : ℚ) (hq : 0 ≤ q) :
    ∀ l : List Insight,
      (l.map (fun i => |dirVal i.Direction * q|)).sum = (nonFlatCount l : ℚ) * q
  | [] => by simp [nonFlatCount]
  | i :: t => by
      rw [List.map_cons, List.sum_cons, sumAbsDir q hq t, nonFlatCount_cons]
      rcases hd : i.Direction with _ | _ | _ <;>
        simp [hd, dirVal, abs_of_nonneg hq, neg_one_mul, abs_neg,
          Nat.cast_add, Nat.cast_one, Nat.cast_zero] <;>
        ring

/-- Claim C1: each non-flat insight of the list is assigned a percent of
absolute value `1/N` (`N` the number of non-flat insights), positive for
`Up` and negative for `Down`. -/
theorem claim_C1 (l : List Insight) (i : Insight) (p : ℚ)
    (hmem : (i, p) ∈ DetermineTargetPercent l)
    (hnf : i.Direction ≠ InsightDirection.Flat) :
    |p| = 1 / (nonFlatCount l : ℚ) ∧
    (i.Direction = InsightDirection.Up → 0 < p) ∧
    (i.Direction = InsightDirection.Down → p < 0) := by
  obtain ⟨j, hj, hji⟩ := List.mem_map.1 hmem
  injection hji with h1 h2
  subst h1
  subst h2
  have hcpos : 0 < nonFlatCount l := by
    have hmemf : j ∈ l.filter (fun k => decide (k.Direction ≠ InsightDirection.Flat)) :=
      List.mem_filter.2 ⟨hj, by simpa using hnf⟩
    simpa [nonFlatCount] using List.length_pos.2 (List.ne_nil_of_mem hmemf)
  have hc0 : nonFlatCount l ≠ 0 := Nat.pos_iff_ne_zero.1 hcpos
  have hql : 0 < 1 / (nonFlatCount l : ℚ) := by
    have : (0 : ℚ) < (nonFlatCount l : ℚ) := by exact_mod_cast hcpos
    positivity
  unfold targetPercentOf
  rw [if_neg hc0]
  rcases hd : j.Direction with _ | _ | _
  · simp only [hd, dirVal, one_mul]
    exact ⟨abs_of_pos hql, fun _ => hql, fun h => InsightDirection.noConfusion h⟩
  · simp only [hd, dirVal, neg_one_mul]
    refine ⟨?_, fun h => InsightDirection.noConfusion h, fun _ => neg_neg_of_pos hql⟩
    rw [abs_neg]
    exact abs_of_pos hql
  · exact absurd hd hnf

/-- Witness for C1: the `Up` insight among one `Up` and one `Down` gets
percent `1/2`. -/
theorem claim_C1_witness :
    (insUp, (1 / 2 : ℚ)) ∈ DetermineTargetPercent [insUp, insDown] ∧
    insUp.Direction ≠ InsightDirection.Flat ∧
    (|(1 / 2 : ℚ)| = 1 / (nonFlatCount [insUp, insDown] : ℚ) ∧
     (insUp.Direction = InsightDirection.Up → 0 < (1 / 2 : ℚ)) ∧
     (insUp.Direction = InsightDirection.Down → (1 / 2 : ℚ) < 0)) :=
  ⟨by decide, by decide, claim_C1 [insUp, insDown] insUp (1 / 2) (by decide) (by decide)⟩

/-- Claim C10: flat insights are assigned exactly `0`, and the absolute
values of all assigned percents sum to `1` when some non-flat insight is
present and to `0` otherwise.  (`l.Nodup` mirrors the Python dict being
keyed on distinct insight objects.) -/
theorem claim_C10 (l : List Insight) (hnd : l.Nodup) :
    (∀ ip ∈ DetermineTargetPercent l,
        ip.1.Direction = InsightDirection.Flat → ip.2 = 0) ∧
    ((DetermineTargetPercent l).map (fun ip => |ip.2|)).sum
      = if 0 < nonFlatCount l then 1 else 0 := by
  constructor
  · rintro ⟨i, q⟩ hmem hflat
    obtain ⟨j, hj, hji⟩ := List.mem_map.1 hmem
    injection hji with h1 h2
    subst h1
    simp only at hflat
    rw [← h2]
    unfold targetPercentOf
    rw [hflat]
    simp [dirVal]
  · have hmm : (DetermineTargetPercent l).map (fun ip => |ip.2|)
        = l.map (fun i => |dirVal i.Direction *
            (if nonFlatCount l = 0 then 0 else 1 / (nonFlatCount l : ℚ))|) := by
      simp [DetermineTargetPercent, targetPercentOf, Function.comp_def]
    have hq : (0 : ℚ) ≤ (if nonFlatCount l = 0 then 0 else 1 / (nonFlatCount l : ℚ)) := by
      by_cases hc : nonFlatCount l = 0
      · simp [hc]
      · rw [if_neg hc]
        positivity
    rw [hmm, sumAbsDir _ hq l]
    by_cases hc : nonFlatCount l = 0
    · simp [hc]
    · have hcq : (nonFlatCount l : ℚ) ≠ 0 := by exact_mod_cast hc
      rw [if_neg hc, if_pos (Nat.pos_of_ne_zero hc), mul_one_div_cancel hcq]

/-- Witness for C10: one `Up` and one `Flat` insight; the flat one gets `0`
and the absolute percents sum to `1`. -/
theorem claim_C10_witness :
    ([insUp, insFlat] : List Insight).Nodup ∧
    ((∀ ip ∈ DetermineTargetPercent [insUp, insFlat],
        ip.1.Direction = InsightDirection.Flat → ip.2 = 0) ∧
     ((DetermineTargetPercent [insUp, insFlat]).map (fun ip => |ip.2|)).sum
        = if 0 < nonFlatCount [insUp, insFlat] then 1 else 0) :=
  ⟨by decide, claim_C10 [insUp, insFlat] (by decide)⟩

/-- Claim C8: with no insights, a time at or before the next expiry, and no
recorded removed symbols, `CreateTargets` returns the empty target list and
leaves the state unchanged (and logs nothing). -/
theorem claim_C8 (rebalancing : Bool) (rebalancingFunc : Nat → Nat)
    (percentFn : Nat → ℚ → Option PortfolioTarget) (portfolio : Nat → Holding)
    (utcTime : Nat) (st : PCMState)
    (h1 : utcTime ≤ st.nextExpiryTime) (h2 : st.removedSymbols = none) :
    CreateTargets rebalancing rebalancingFunc percentFn portfolio utcTime st []
      = ([], st, []) := by
  unfold CreateTargets
  rw [if_pos ⟨rfl, h1, h2⟩]

/-- Witness for C8: empty insight list at time 0 with expiry 5 pending. -/
theorem claim_C8_witness :
    (0 : Nat) ≤ (PCMState.mk [] none 5 0).nextExpiryTime ∧
    (PCMState.mk [] none 5 0).removedSymbols = none ∧
    CreateTargets false id (fun _ _ => none) (fun _ => emptyHolding) 0
        (PCMState.mk [] none 5 0) [] = ([], PCMState.mk [] none 5 0, []) :=
  ⟨by decide, by decide,
    claim_C8 false id (fun _ _ => none) (fun _ => emptyHolding) 0
      (PCMState.mk [] none 5 0) (by decide) (by decide)⟩

/-- Claim C2: after `OnSecuritiesChanged` records a non-empty removed list,
`CreateTargets` returns a target list containing a zero (flatten) target for
each removed symbol. -/
theorem claim_C2 (rebalancing : Bool) (rebalancingFunc : Nat → Nat)
    (percentFn : Nat → ℚ → Option PortfolioTarget) (portfolio : Nat → Holding)
    (utcTime : Nat) (st : PCMState) (removed : List Nat) (insights : List Insight)
    (hne : removed ≠ []) (s : Nat) (hs : s ∈ removed) :
    (PortfolioTarget.mk s 0) ∈
      (CreateTargets rebalancing rebalancingFunc percentFn portfolio utcTime
        (OnSecuritiesChanged st removed) insights).1 := by
  unfold CreateTargets
  rw [if_neg]
  · exact List.mem_append_left _ (List.mem_append_left _
      (List.mem_map_of_mem (fun s => PortfolioTarget.mk s 0) hs))
  · rintro ⟨-, -, h⟩
    cases h


/-- Witness for C2: one removed symbol `7` yields the flatten target
`(7, 0)`. -/
theorem claim_C2_witness :
    ([7] : List Nat) ≠ [] ∧ (7 : Nat) ∈ ([7] : List Nat) ∧
    (PortfolioTarget.mk 7 0) ∈
      (CreateTargets false id (fun sym q => some (PortfolioTarget.mk sym q))
        (fun _ => emptyHolding) 5
        (OnSecuritiesChanged (PCMState.mk [] none 0 0) [7]) [insUp]).1 :=
  ⟨by decide, by decide,
    claim_C2 false id (fun sym q => some (PortfolioTarget.mk sym q))
      (fun _ => emptyHolding) 5 (PCMState.mk [] none 0 0) [7] [insUp]
      (by decide) 7 (by decide)⟩

/-- A null result of `percentFn` puts the insight's symbol among the error
symbols of the target loop. -/
lemma percentLoop_none_mem (percentFn : Nat → ℚ → Option PortfolioTarget)
    (pct : Insight → ℚ) (l : List Insight) (i : Insight) (hi : i ∈ l)
    (hnone : percentFn i.Symbol (pct i) = none) :
    i.Symbol ∈ (percentTargetsLoop percentFn pct l).2 := by
  induction l with
  | nil => cases hi
  | cons j t ih =>
      rcases List.mem_cons.1 hi with rfl | ht
      · simp only [percentTargetsLoop, hnone]
        exact List.mem_cons_self _ _
      · have hrec := ih ht
        simp only [percentTargetsLoop]
        cases hpf : percentFn j.Symbol (pct j) <;> simp [hpf, hrec]

/-- Every target the loop emits comes from a non-null `percentFn` result:
null results are skipped, not forwarded. -/
lemma percentLoop_targets_some (percentFn : Nat → ℚ → Option PortfolioTarget)
    (pct : Insight → ℚ) (l : List Insight) :
    ∀ t ∈ (percentTargetsLoop percentFn pct l).1,
      ∃ i ∈ l, percentFn i.Symbol (pct i) = some t := by
  induction l with
  | nil => simp [percentTargetsLoop]
  | cons j r ih =>
      intro t ht
      simp only [percentTargetsLoop] at ht
      cases hpf : percentFn j.Symbol (pct j) with
      | none =>
          rw [hpf] at ht
          simp only at ht
          obtain ⟨i, hi, h⟩ := ih t ht
          exact ⟨i, List.mem_cons_of_mem _ hi, h⟩
      | some tg =>
          rw [hpf] at ht
          simp only [List.mem_cons] at ht
          rcases ht with rfl | ht
          · exact ⟨j, List.mem_cons_self _ _, hpf⟩
          · obtain ⟨i, hi, h⟩ := ih t ht
            exact ⟨i, List.mem_cons_of_mem _ hi, h⟩

/-- No expired-insight flatten target is emitted for an error symbol. -/
lemma expiredFlatten_not_err (remaining : List Insight) (utcTime : Nat)
    (errs : List Nat) (expired : List Insight) :
    ∀ t ∈ expiredFlattenTargets remaining utcTime errs expired, t.Symbol ∉ errs := by
  intro t ht hmem
  unfold expiredFlattenTargets at ht
  obtain ⟨s, hs, rfl⟩ := List.mem_map.1 ht
  obtain ⟨-, hs2⟩ := List.mem_filter.1 hs
  simp [hmem] at hs2

/-- `CreateTargets` emits no log messages. -/
lemma createTargets_no_logs (rebalancing : Bool) (rebalancingFunc : Nat → Nat)
    (percentFn : Nat → ℚ → Option PortfolioTarget) (portfolio : Nat → Holding)
    (utcTime : Nat) (st : PCMState) (insights : List Insight) :
    (CreateTargets rebalancing rebalancingFunc percentFn portfolio utcTime
      st insights).2.2 = [] := by
  unfold CreateTargets
  split <;> rfl

/-- Claim C3 (as stated) is false on a concrete run: with
`PortfolioTarget.Percent` returning null for the one active insight, the
null is not merely passed through and logged — the repository's own loop
records the symbol in `errorSymbols`, drops the target, and `CreateTargets`
emits no log message at all. -/
theorem claim_C3_counterexample :
    (percentTargetsLoop (fun _ _ => none) (fun _ => 0) [insUp]).2 = [insUp.Symbol] ∧
    (CreateTargets false id (fun _ _ => none) (fun _ => emptyHolding) 5
        (PCMState.mk [] none 0 0) [insUp]).2.2 = ([] : List String) ∧
    (CreateTargets false id (fun _ _ => none) (fun _ => emptyHolding) 5
        (PCMState.mk [] none 0 0) [insUp]).1 = [] := by
  refine ⟨by decide, by decide, by decide⟩

/-- Claim C3 (amended): when `PortfolioTarget.Percent` yields null for an
insight, the null is handled by logic of this repository: the target is not
appended (every appended target comes from a non-null result), the
insight's symbol is recorded in `errorSymbols`, and the expired-insight
flatten target for any error symbol is suppressed; `CreateTargets` itself
logs nothing. -/
theorem claim_C3 (percentFn : Nat → ℚ → Option PortfolioTarget)
    (pct : Insight → ℚ) (l : List Insight) (remaining : List Insight)
    (errs : List Nat) (expired : List Insight)
    (rebalancing : Bool) (rebalancingFunc : Nat → Nat) (portfolio : Nat → Holding)
    (utcTime : Nat) (st : PCMState) (insights : List Insight) :
    (∀ i ∈ l, percentFn i.Symbol (pct i) = none →
        i.Symbol ∈ (percentTargetsLoop percentFn pct l).2) ∧
    (∀ t ∈ (percentTargetsLoop percentFn pct l).1,
        ∃ i ∈ l, percentFn i.Symbol (pct i) = some t) ∧
    (∀ t ∈ expiredFlattenTargets remaining utcTime errs expired, t.Symbol ∉ errs) ∧
    (CreateTargets rebalancing rebalancingFunc percentFn portfolio utcTime
        st insights).2.2 = [] :=
  ⟨fun i hi hnone => percentLoop_none_mem percentFn pct l i hi hnone,
   percentLoop_targets_some percentFn pct l,
   expiredFlatten_not_err remaining utcTime errs expired,
   createTargets_no_logs rebalancing rebalancingFunc percentFn portfolio utcTime
     st insights⟩

/-- Witness for C3: concrete instantiation with an always-null
`percentFn`. -/
theorem claim_C3_witness :
    (∀ i ∈ [insUp], (fun (_ : Nat) (_ : ℚ) => (none : Option PortfolioTarget))
          i.Symbol ((fun _ => (0 : ℚ)) i) = none →
        i.Symbol ∈ (percentTargetsLoop (fun _ _ => none) (fun _ => 0) [insUp]).2) ∧
    (∀ t ∈ (percentTargetsLoop (fun _ _ => (none : Option PortfolioTarget))
          (fun _ => (0 : ℚ)) [insUp]).1,
        ∃ i ∈ [insUp], (fun (_ : Nat) (_ : ℚ) => (none : Option PortfolioTarget))
          i.Symbol ((fun _ => (0 : ℚ)) i) = some t) ∧
    (∀ t ∈ expiredFlattenTargets [] 5 [0] [insFlat], t.Symbol ∉ ([0] : List Nat)) ∧
    (CreateTargets false id (fun _ _ => none) (fun _ => emptyHolding) 5
        (PCMState.mk [] none 0 0) [insUp]).2.2 = [] :=
  claim_C3 (fun _ _ => none) (fun _ => 0) [insUp] [] [0] [insFlat]
    false id (fun _ => emptyHolding) 5 (PCMState.mk [] none 0 0) [insUp]

end ClaimTheorems

end Strategy
